import Mathlib

/-!
# Verification of the ghametrics collector core (src/scripts/linux.sh, src/utils/inputParser.ts)

Shallow embedding of the monitoring script's pure logic:

* the bounded JSON-array append (`append_entry`, linux.sh lines 359-380),
* initialize-or-validate of the output file (`initialize_file`, lines 344-357),
* the repository-list parser (`parse_repos_to_json`, lines 220-235),
* the CPU and memory percentage arithmetic (`get_cpu_info` / `get_memory_info`,
  lines 120-160),
* the lock-acquisition poll (`acquire_lock`, lines 97-110),
* the statistics printer (`print_stats`, lines 386-410),
* the entry assembler's mode dispatch (`collect_entry`, lines 241-338),
* the action-input parser (`parseInputs`, inputParser.ts).

JSON values are represented by the inductive `Json`; jq pipelines are
translated combinator by combinator.
-/

/-- JSON values, as produced and consumed by the script's jq pipelines.
Numbers are modelled as rationals (jq numbers are IEEE doubles; every value
appearing in the claims is exactly representable). -/
inductive Json : Type where
  | obj (fields : List (String × Json)) : Json
  | arr (items : List Json) : Json
  | str (text : String) : Json
  | num (value : ℚ) : Json
  | bool (flag : Bool) : Json
  | null : Json
deriving Repr

/-! ## Bounded array append (linux.sh `append_entry`, lines 359-380)

The jq program run under the lock is
`. + [$entry] | if length > $max then .[-$max:] else . end`,
then the temp file is renamed over the target. We model the array-level
transformation; it is generic in the element type exactly as jq's is. -/

/-- One `append_entry` call at the array level: append the new entry, and if
the length now exceeds `max`, keep the last `max` elements (jq `.[-$max:]`).
jq's slice `.[-0:]` is `.[0:]`, the whole array, hence the `max = 0` branch. -/
def append_entry {α : Type} (arr : List α) (e : α) (max : ℕ) : List α :=
  let a := arr ++ [e]
  if a.length > max then
    (if max = 0 then a else a.drop (a.length - max))
  else a

/-- Iterating `append_entry` over a batch of entries, oldest first. -/
def append_entry_iter {α : Type} (arr : List α) (es : List α) (max : ℕ) : List α :=
  es.foldl (fun a e => append_entry a e max) arr

/-- Dropping from a dropped prefix of an append is one bigger drop. -/
theorem drop_append_drop {α : Type} (xs ys : List α) (n m : ℕ) (hn : n ≤ xs.length) :
    ((xs.drop n) ++ ys).drop m = (xs ++ ys).drop (n + m) := by
  have h1 : (xs ++ ys).drop n = xs.drop n ++ ys.drop (n - xs.length) := by
    exact List.drop_append_eq_append_drop
  have h2 : n - xs.length = 0 := Nat.sub_eq_zero_of_le hn
  rw [h2, List.drop_zero] at h1
  rw [← h1, List.drop_drop]

/-- One append with `1 ≤ max` keeps exactly the last `max` elements (or all,
when they fit) of the array extended with the new entry. -/
theorem append_entry_eq_drop {α : Type} (arr : List α) (e : α) (max : ℕ)
    (hmax : 1 ≤ max) :
    append_entry arr e max = (arr ++ [e]).drop ((arr.length + 1) - max) := by
  unfold append_entry
  have hlen : (arr ++ [e]).length = arr.length + 1 := by
    simp [List.length_append]
  simp only [hlen]
  split
  · have : ¬ max = 0 := by omega
    simp [this]
  · have : arr.length + 1 - max = 0 := by omega
    simp [this]

/-- Iterated `append_entry` over a non-empty batch keeps exactly the last `max`
elements of the concatenation, for `1 ≤ max`. -/
theorem append_entry_iter_eq_drop {α : Type} (es : List α) (arr : List α) (max : ℕ)
    (hmax : 1 ≤ max) (hne : es ≠ []) :
    append_entry_iter arr es max
      = (arr ++ es).drop ((arr.length + es.length) - max) := by
  induction es generalizing arr with
  | nil => exact absurd rfl hne
  | cons e es' ih =>
    by_cases h : es' = []
    · subst h
      simp only [append_entry_iter, List.foldl_cons, List.foldl_nil]
      rw [append_entry_eq_drop arr e max hmax]
      simp
    · have step : append_entry_iter arr (e :: es') max
          = append_entry_iter (append_entry arr e max) es' max := by
        simp [append_entry_iter]
      rw [step, ih (append_entry arr e max) h]
      rw [append_entry_eq_drop arr e max hmax]
      have hlen1 : ((arr ++ [e]).drop ((arr.length + 1) - max)).length
          = (arr.length + 1) - ((arr.length + 1) - max) := by
        simp [List.length_drop]
      rw [hlen1]
      rw [drop_append_drop (arr ++ [e]) es' ((arr.length + 1) - max) _
        (by simp only [List.length_append, List.length_singleton]; omega)]
      have harr : arr ++ [e] ++ es' = arr ++ e :: es' := by simp
      rw [harr]
      have hidx : arr.length + 1 - max
            + ((arr.length + 1) - ((arr.length + 1) - max) + es'.length - max)
          = arr.length + (e :: es').length - max := by
        simp only [List.length_cons]
        omega
      rw [hidx]

/-- C1: for every initial array, every non-empty batch of appended entries and
every `maxEntries = k ≥ 1`, after the successive `append_entry` calls the
stored array has length `min (initial length + N) k` and holds exactly the
most recently inserted `min (initial length + N) k` elements, oldest dropped,
in insertion order (the suffix of that length of the concatenation). -/
theorem append_entry_bounded {α : Type} (arr es : List α) (k : ℕ)
    (hk : 1 ≤ k) (hne : es ≠ []) :
    (append_entry_iter arr es k).length = min (arr.length + es.length) k ∧
    append_entry_iter arr es k
      = (arr ++ es).drop ((arr.length + es.length) - k) := by
  have hd := append_entry_iter_eq_drop es arr k hk hne
  refine ⟨?_, hd⟩
  rw [hd]
  simp [List.length_drop]
  omega

/-- C1 witness: from an initial 2-element array, appending 3 entries with
`maxEntries = 4` keeps the last four elements in order. -/
theorem append_entry_bounded_witness :
    (append_entry_iter [10, 20] [30, 40, 50] 4).length = min (2 + 3) 4 ∧
    append_entry_iter [10, 20] [30, 40, 50] 4
      = ([10, 20] ++ [30, 40, 50]).drop ((2 + 3) - 4) := by
  have h := append_entry_bounded ([10, 20] : List ℕ) [30, 40, 50] 4
    (by decide) (by decide)
  simpa using h

/-! ## JSON syntax checking (linux.sh `initialize_file`, lines 344-357)

`initialize_file` validates an existing file with
`jq -e '. | type == "array"'`: jq parses the file as a stream of JSON
values and `-e` derives the exit status from the *last* output, so the
check succeeds iff every value in the file parses and the last one is an
array (a file with no value fails).  The checker below is a fuel-indexed
recursive-descent JSON syntax scanner; it accepts a slight superset of
JSON number and string-escape grammar (leading zeros and arbitrary
escape pairs), which no theorem below depends on. -/

/-- JSON insignificant whitespace. -/
def isJsonWs (c : Char) : Bool :=
  c = ' ' || c = '\t' || c = '\n' || c = '\r'

/-- Drop leading JSON whitespace. -/
def skipWs : List Char → List Char
  | [] => []
  | c :: cs => if isJsonWs c then skipWs cs else c :: cs

/-- Expect an exact literal tail (used for `null`, `true`, `false`). -/
def pLit : List Char → List Char → Option (List Char)
  | [], cs => some cs
  | _ :: _, [] => none
  | l :: ls, c :: cs => if c = l then pLit ls cs else none

/-- Drop a (possibly empty) run of decimal digits. -/
def dropDigits : List Char → List Char
  | [] => []
  | c :: cs => if c.isDigit then dropDigits cs else c :: cs

/-- Optional fraction part `.digits`. -/
def pFrac : List Char → Option (List Char)
  | '.' :: c :: cs => if c.isDigit then some (dropDigits cs) else none
  | '.' :: [] => none
  | cs => some cs

/-- Optional exponent part `e[+-]digits`. -/
def pExp : List Char → Option (List Char)
  | [] => some []
  | c :: cs =>
    if c = 'e' || c = 'E' then
      match cs with
      | [] => none
      | s :: cs' =>
        if s = '+' || s = '-' then
          match cs' with
          | [] => none
          | d :: ds => if d.isDigit then some (dropDigits ds) else none
        else if s.isDigit then some (dropDigits cs')
        else none
    else some (c :: cs)

/-- Number: optional minus, one or more digits, optional fraction/exponent. -/
def pNumber (cs : List Char) : Option (List Char) :=
  let body := fun (l : List Char) =>
    match l with
    | [] => none
    | c :: cs' => if c.isDigit then (pFrac (dropDigits cs')).bind pExp else none
  match cs with
  | '-' :: cs' => body cs'
  | _ => body cs

/-- String body after the opening quote: anything up to an unescaped quote. -/
def pStringTail : List Char → Option (List Char)
  | [] => none
  | '"' :: cs => some cs
  | '\\' :: _ :: cs => pStringTail cs
  | '\\' :: [] => none
  | _ :: cs => pStringTail cs

mutual

/-- Parse one JSON value, returning the unconsumed tail. -/
def pValue : ℕ → List Char → Option (List Char)
  | 0, _ => none
  | f + 1, cs =>
    match skipWs cs with
    | 'n' :: cs' => pLit ['u', 'l', 'l'] cs'
    | 't' :: cs' => pLit ['r', 'u', 'e'] cs'
    | 'f' :: cs' => pLit ['a', 'l', 's', 'e'] cs'
    | '"' :: cs' => pStringTail cs'
    | '\x7b' :: cs' =>
      (match skipWs cs' with
       | '\x7d' :: cs'' => some cs''
       | cs'' => pMembers f cs'')
    | '[' :: cs' =>
      (match skipWs cs' with
       | ']' :: cs'' => some cs''
       | cs'' => pElems f cs'')
    | cs' => pNumber cs'

/-- Parse array elements after the first has been reached, through `]`. -/
def pElems : ℕ → List Char → Option (List Char)
  | 0, _ => none
  | f + 1, cs =>
    match pValue f cs with
    | none => none
    | some rest =>
      match skipWs rest with
      | ']' :: rest' => some rest'
      | ',' :: rest' => pElems f rest'
      | _ => none

/-- Parse object members after the first has been reached, through the
closing brace. -/
def pMembers : ℕ → List Char → Option (List Char)
  | 0, _ => none
  | f + 1, cs =>
    match skipWs cs with
    | '"' :: cs' =>
      (match pStringTail cs' with
       | none => none
       | some rest =>
         match skipWs rest with
         | ':' :: rest' =>
           (match pValue f rest' with
            | none => none
            | some rest'' =>
              match skipWs rest'' with
              | '\x7d' :: r => some r
              | ',' :: r => pMembers f r
              | _ => none)
         | _ => none)
    | _ => none

end

/-- Scan a whole stream of JSON values; `some b` when every value parses and
the stream is non-empty, with `b` = whether the last value is an array. -/
def jqStreamLastIsArray : ℕ → List Char → Option Bool
  | 0, _ => none
  | f + 1, cs =>
    let cs1 := skipWs cs
    match cs1 with
    | [] => none
    | c :: _ =>
      match pValue (cs1.length + 1) cs1 with
      | none => none
      | some rest =>
        let isArr : Bool := c = '['
        if (skipWs rest).isEmpty then some isArr
        else jqStreamLastIsArray f rest

/-- The validation `jq -e '. | type == "array"'` run on file content `s`:
true iff the whole content parses as a non-empty stream of JSON values whose
last value is an array. -/
def isJsonArrayCheck (s : String) : Bool :=
  match jqStreamLastIsArray (s.length + 1) s.toList with
  | some b => b
  | none => false

/-! ## `initialize_file` (linux.sh lines 344-357)

Absent file: write `[]` with `echo` (which appends a newline) and chmod.
Present file failing the validation: `mv` it to `"$OUTPUT_FILE".backup.$(date +%s)`
and write `[]` with `echo` again.  Present file passing the validation:
untouched. -/

/-- Result of one `initialize_file` run: the content of the target file and,
when a backup was taken, its `date +%s` timestamp and its content. -/
structure InitResult where
  target : String
  backup : Option (ℕ × String)
deriving Repr, DecidableEq

/-- The function `initialize_file`: `existing` is the target file's content (none when the
file is absent), `now` the epoch second used in the backup name. -/
def initialize_file (existing : Option String) (now : ℕ) : InitResult :=
  match existing with
  | none => ⟨"[]\n", none⟩
  | some c =>
    if isJsonArrayCheck c then ⟨c, none⟩
    else ⟨"[]\n", some (now, c)⟩

/-- C2 counterexample: on a corrupt file `initialize_file` resets the target
to `[]` *followed by a newline* (`echo "[]"` writes three bytes), not the
two-byte array `[]` the claim states; the backup itself is taken as claimed. -/
theorem initialize_file_two_byte_false :
    (initialize_file (some "oops") 5).target ≠ "[]" ∧
    (initialize_file (some "oops") 5).target = "[]\n" ∧
    (initialize_file (some "oops") 5).backup = some (5, "oops") := by
  refine ⟨?_, ?_, ?_⟩ <;> decide

/-- C2 (amended): a file passing the script's validation (`jq -e
'. | type == "array"'`, in particular any single valid JSON array) is left
byte-identical by one or two runs of `initialize_file`; a file failing the
validation is renamed to a timestamped backup holding exactly the original
bytes, and the target is reset to `[]` followed by a newline. -/
theorem initialize_file_correct (c : String) (t t' : ℕ) :
    (isJsonArrayCheck c = true →
      initialize_file (some c) t = ⟨c, none⟩ ∧
      initialize_file (some (initialize_file (some c) t).target) t' = ⟨c, none⟩) ∧
    (isJsonArrayCheck c = false →
      (initialize_file (some c) t).backup = some (t, c) ∧
      (initialize_file (some c) t).target = "[]\n") := by
  constructor
  · intro h
    simp [initialize_file, h]
  · intro h
    simp [initialize_file, h]

/-- C2 witness: the valid array `[1, 2]` survives two runs byte-identical;
the corrupt content `oops` is backed up and the target reset. -/
theorem initialize_file_correct_witness :
    (initialize_file (some "[1, 2]") 7 = ⟨"[1, 2]", none⟩ ∧
      initialize_file (some (initialize_file (some "[1, 2]") 7).target) 8
        = ⟨"[1, 2]", none⟩) ∧
    ((initialize_file (some "oops") 7).backup = some (7, "oops") ∧
      (initialize_file (some "oops") 7).target = "[]\n") := by
  exact ⟨(initialize_file_correct "[1, 2]" 7 8).1 (by decide),
    (initialize_file_correct "oops" 7 8).2 (by decide)⟩

/-! ## Repository list parsing (linux.sh `parse_repos_to_json`, lines 220-235)

The shell function is
`echo "$repos" | jq -Rs 'split(",") | map(ltrimstr(" ") | rtrimstr(" "))
| map(select(length > 0)) | map(...name/url...)'`
(with an early `echo '[]'` for an empty `$repos`).  Two behaviours matter:
`echo` appends a newline and `jq -Rs` slurps the entire input *including*
that newline, so the final comma-token carries a trailing `\n`; and jq's
`ltrimstr(" ")`/`rtrimstr(" ")` strip the one-character prefix/suffix `" "`
at most once — they are not whitespace trimming.  Modelled on `List Char`
so that every function reduces in the kernel. -/

/-- jq `split(s)` for a one-character separator. -/
def splitOnChar (sep : Char) : List Char → List (List Char)
  | [] => [[]]
  | c :: cs =>
    let r := splitOnChar sep cs
    if c = sep then [] :: r
    else
      match r with
      | [] => [[c]]
      | t :: ts => (c :: t) :: ts

/-- jq `ltrimstr(" ")`: remove one leading space, if present. -/
def ltrimSpace1 : List Char → List Char
  | ' ' :: cs => cs
  | cs => cs

/-- jq `rtrimstr(" ")`: remove one trailing space, if present. -/
def rtrimSpace1 (cs : List Char) : List Char :=
  match cs.reverse with
  | ' ' :: r => r.reverse
  | _ => cs

/-- One parsed repository record `(name, url)`. -/
structure Repo where
  name : String
  url : String
deriving Repr, DecidableEq

/-- The function `parse_repos_to_json`: the full pipeline.  The `++ ['\n']` is the newline
appended by `echo` and slurped by `jq -Rs`. -/
def parse_repos_to_json (repos : String) : List Repo :=
  if repos = "" then []
  else
    ((((splitOnChar ',' (repos.toList ++ ['\n'])).map
        (fun t => rtrimSpace1 (ltrimSpace1 t))).filter
        (fun t => t.length > 0)).map
        (fun t => ⟨String.mk t, "https://github.com/" ++ String.mk t⟩))

/-- C4: the claim's own test vector refutes it.  On input `" a/b , ,c/d,"`
the code emits a *third* element named by the bare newline that `echo`
appended (the trailing-comma token `"\n"` is not trimmed by
`rtrimstr(" ")` and is non-empty, so it survives the filter). -/
theorem parse_repos_to_json_newline_bug :
    parse_repos_to_json " a/b , ,c/d," =
      [⟨"a/b", "https://github.com/a/b"⟩,
       ⟨"c/d", "https://github.com/c/d"⟩,
       ⟨"\n", "https://github.com/\n"⟩] := by
  decide

/-! ## CPU usage arithmetic (linux.sh `get_cpu_info`, lines 120-147)

`grep 'cpu ' /proc/stat | awk '{ usage=100-($5*100)/($2+$3+$4+$5+$6+$7+$8);
printf "%.2f", usage }'`.  On the aggregate `cpu` line of `/proc/stat` the
awk fields are `$1 = "cpu"`, `$2 = user`, `$3 = nice`, `$4 = system`,
`$5 = idle`, `$6 = iowait`, `$7 = irq`, `$8 = softirq`.  A single snapshot
of the cumulative counters is taken; no second sample.  awk computes in
IEEE doubles; modelled exactly over `ℚ`, with `%.2f` as rounding to a
multiple of `1/100` (the C library's tie behaviour is not distinguished by
any claim). -/

/-- One snapshot of the seven aggregate-cpu counters of `/proc/stat`. -/
structure CpuCounters where
  user : ℕ
  nice : ℕ
  system : ℕ
  idle : ℕ
  iowait : ℕ
  irq : ℕ
  softirq : ℕ
deriving Repr, DecidableEq

/-- awk `$2+$3+$4+$5+$6+$7+$8`. -/
def cpuTotal (c : CpuCounters) : ℕ :=
  c.user + c.nice + c.system + c.idle + c.iowait + c.irq + c.softirq

/-- awk `usage = 100 - ($5*100)/($2+$3+$4+$5+$6+$7+$8)`. -/
def cpu_usage_raw (c : CpuCounters) : ℚ :=
  100 - ((c.idle : ℚ) * 100) / (cpuTotal c : ℚ)

/-- awk `printf "%.2f"`: quantize to hundredths. -/
def printf2 (q : ℚ) : ℚ := (round (q * 100) : ℤ) / 100

/-- The `usage_percent` value emitted by `get_cpu_info`. -/
def cpu_usage_percent (c : CpuCounters) : ℚ := printf2 (cpu_usage_raw c)

/-- C5: from one snapshot with positive counter sum, the raw usage is
`100 - idle*100/(user+nice+system+idle+iowait+irq+softirq)`, the emitted
value is that quantity formatted to exactly two decimal places (a multiple
of `1/100`), and the raw value lies in `[0, 100]`. -/
theorem cpu_usage_percent_spec (c : CpuCounters) (h : 0 < cpuTotal c) :
    cpu_usage_raw c = 100 - ((c.idle : ℚ) * 100) /
      ((c.user : ℚ) + c.nice + c.system + c.idle + c.iowait + c.irq + c.softirq) ∧
    cpu_usage_percent c = printf2 (cpu_usage_raw c) ∧
    (cpu_usage_percent c * 100).den = 1 ∧
    0 ≤ cpu_usage_raw c ∧ cpu_usage_raw c ≤ 100 := by
  have htot : ((cpuTotal c : ℕ) : ℚ) =
      (c.user : ℚ) + c.nice + c.system + c.idle + c.iowait + c.irq + c.softirq := by
    simp [cpuTotal]
  have htotpos : (0 : ℚ) < (cpuTotal c : ℚ) := by exact_mod_cast h
  refine ⟨by rw [cpu_usage_raw, htot], rfl, ?_, ?_, ?_⟩
  · have : cpu_usage_percent c * 100 = ((round (cpu_usage_raw c * 100) : ℤ) : ℚ) := by
      rw [cpu_usage_percent, printf2]
      field_simp
    rw [this, Rat.den_intCast]
  · have hidle : (c.idle : ℚ) ≤ (cpuTotal c : ℚ) := by
      have : c.idle ≤ cpuTotal c := by
        unfold cpuTotal; omega
      exact_mod_cast this
    have hdiv : ((c.idle : ℚ) * 100) / (cpuTotal c : ℚ) ≤ 100 := by
      rw [div_le_iff₀ htotpos]
      nlinarith
    unfold cpu_usage_raw
    linarith
  · have hnn : (0 : ℚ) ≤ ((c.idle : ℚ) * 100) / (cpuTotal c : ℚ) := by
      apply div_nonneg
      · positivity
      · exact le_of_lt htotpos
    unfold cpu_usage_raw
    linarith

/-- C5 witness: counters `(1, 0, 1, 2, 0, 0, 0)` have sum `4` and yield raw
usage `100 - 200/4 = 50`, emitted unchanged by the two-decimal format. -/
theorem cpu_usage_percent_spec_witness :
    cpu_usage_raw ⟨1, 0, 1, 2, 0, 0, 0⟩ = 100 - ((2 : ℚ) * 100) /
      ((1 : ℚ) + 0 + 1 + 2 + 0 + 0 + 0) ∧
    cpu_usage_percent ⟨1, 0, 1, 2, 0, 0, 0⟩ = printf2 (cpu_usage_raw ⟨1, 0, 1, 2, 0, 0, 0⟩) ∧
    (cpu_usage_percent ⟨1, 0, 1, 2, 0, 0, 0⟩ * 100).den = 1 ∧
    0 ≤ cpu_usage_raw ⟨1, 0, 1, 2, 0, 0, 0⟩ ∧ cpu_usage_raw ⟨1, 0, 1, 2, 0, 0, 0⟩ ≤ 100 := by
  have h := cpu_usage_percent_spec ⟨1, 0, 1, 2, 0, 0, 0⟩ (by decide)
  simpa using h

/-! ## Memory usage arithmetic (linux.sh `get_memory_info`, lines 149-160)

`free -b | grep "^Mem:"` piped into
`jq -Rs 'split(" ") | map(select(length > 0)) | ... '`: the non-empty
fields of the `Mem:` line are indexed; field 0 is the `Mem:` label and
fields 1, 2, 3, 6 are the total, used, free and available byte counts
(`tonumber` on a missing index fails, modelled by `Option`). -/

/-- The memory fragment produced by `get_memory_info`. -/
structure MemInfo where
  total_bytes : ℕ
  used_bytes : ℕ
  free_bytes : ℕ
  available_bytes : ℕ
  usage_percent : ℚ
deriving Repr, DecidableEq

/-- The function `get_memory_info` on the split non-empty fields of the `Mem:` line
(field 0 stands for the `Mem:` label; the numeric columns follow). -/
def get_memory_info (fields : List ℕ) : Option MemInfo :=
  match fields[1]?, fields[2]?, fields[3]?, fields[6]? with
  | some t, some u, some f, some a =>
    some ⟨t, u, f, a, (u : ℚ) / (t : ℚ) * 100⟩
  | _, _, _, _ => none

/-- C6: whenever `get_memory_info` produces a fragment with positive total,
its `usage_percent` is exactly `used / total * 100`. -/
theorem get_memory_info_percent (fields : List ℕ) (m : MemInfo)
    (h : get_memory_info fields = some m) (hpos : 0 < m.total_bytes) :
    m.usage_percent = (m.used_bytes : ℚ) / (m.total_bytes : ℚ) * 100 := by
  unfold get_memory_info at h
  cases h1 : fields[1]? with
  | none => rw [h1] at h; cases h
  | some t =>
    cases h2 : fields[2]? with
    | none => rw [h1, h2] at h; cases h
    | some u =>
      cases h3 : fields[3]? with
      | none => rw [h1, h2, h3] at h; cases h
      | some f =>
        cases h6 : fields[6]? with
        | none => rw [h1, h2, h3, h6] at h; cases h
        | some a =>
          rw [h1, h2, h3, h6] at h
          cases h
          rfl

/-- C6 witness: the `Mem:` line `Mem: 1000 250 750 _ _ 700` yields
`usage_percent = 250 / 1000 * 100 = 25`. -/
theorem get_memory_info_percent_witness :
    (⟨1000, 250, 750, 700, 25⟩ : MemInfo).usage_percent
        = ((250 : ℕ) : ℚ) / ((1000 : ℕ) : ℚ) * 100 ∧
    get_memory_info [0, 1000, 250, 750, 0, 0, 700]
        = some ⟨1000, 250, 750, 700, 25⟩ := by
  have hm : get_memory_info [0, 1000, 250, 750, 0, 0, 700]
      = some ⟨1000, 250, 750, 700, 25⟩ := by
    simp only [get_memory_info]
    norm_num
  exact ⟨get_memory_info_percent [0, 1000, 250, 750, 0, 0, 700]
      ⟨1000, 250, 750, 700, 25⟩ hm (by norm_num), hm⟩

/-! ## Lock acquisition (linux.sh `acquire_lock`, lines 97-110)

```
count=0
while [ -f "$LOCK_FILE" ] && [ $count -lt $LOCK_TIMEOUT ]; do
    sleep 0.5; count=$((count + 1))
done
if [ $count -eq $LOCK_TIMEOUT ]; then rm -f "$LOCK_FILE"; fi
echo $$ > "$LOCK_FILE"
```

The environment is modelled by `present : ℕ → Bool`, whether the lock file
exists at the `n`-th `-f` test (each iteration sleeps 0.5 s, so `waited`
ticks cost `waited / 2` seconds).  `LOCK_TIMEOUT` is 10. -/

/-- The polling loop: returns the final value of `count`. -/
def lockWait (present : ℕ → Bool) (c timeout : ℕ) : ℕ :=
  if _h : c < timeout then
    if present c then lockWait present (c + 1) timeout else c
  else c
termination_by timeout - c

/-- Outcome of one `acquire_lock` call. -/
structure LockResult where
  /-- final `count`: number of 0.5-second sleeps performed. -/
  waited : ℕ
  /-- whether the stale lock was forcibly removed (`rm -f`). -/
  forced : Bool
  /-- content written into the lock file (`echo $$`). -/
  lockContent : ℕ
deriving Repr, DecidableEq

/-- The function `acquire_lock`, with the default `LOCK_TIMEOUT` parameterized. -/
def acquire_lock (present : ℕ → Bool) (timeout pid : ℕ) : LockResult :=
  let c := lockWait present 0 timeout
  ⟨c, decide (c = timeout), pid⟩

/-- Unfolding: past the timeout the loop stops with the current count. -/
theorem lockWait_stop (present : ℕ → Bool) (c timeout : ℕ) (h : ¬ c < timeout) :
    lockWait present c timeout = c := by
  unfold lockWait
  rw [dif_neg h]

/-- Unfolding: lock absent before the timeout, the loop stops here. -/
theorem lockWait_found (present : ℕ → Bool) (c timeout : ℕ)
    (h : c < timeout) (hp : present c = false) :
    lockWait present c timeout = c := by
  unfold lockWait
  rw [dif_pos h, hp]
  simp

/-- Unfolding: lock present before the timeout, sleep one tick and retry. -/
theorem lockWait_step (present : ℕ → Bool) (c timeout : ℕ)
    (h : c < timeout) (hp : present c = true) :
    lockWait present c timeout = lockWait present (c + 1) timeout := by
  conv_lhs => unfold lockWait
  rw [dif_pos h, hp]
  simp

/-- The loop `lockWait` never exceeds the timeout; every check before the final count
saw the lock present, and a stop strictly before the timeout means the lock
was absent at that check. -/
theorem lockWait_spec (present : ℕ → Bool) (timeout : ℕ) :
    ∀ fuel c, timeout - c = fuel → c ≤ timeout →
    c ≤ lockWait present c timeout ∧
    lockWait present c timeout ≤ timeout ∧
    (∀ i, c ≤ i → i < lockWait present c timeout → present i = true) ∧
    (lockWait present c timeout < timeout →
      present (lockWait present c timeout) = false) := by
  intro fuel
  induction fuel with
  | zero =>
    intro c hf hc
    have hceq : c = timeout := by omega
    have hstop : lockWait present c timeout = c := lockWait_stop _ _ _ (by omega)
    rw [hstop]
    exact ⟨le_refl c, hc, fun i h1 h2 => absurd h2 (by omega), fun h => absurd h (by omega)⟩
  | succ f ih =>
    intro c hf hc
    have hlt : c < timeout := by omega
    cases hp : present c with
    | false =>
      have hstop : lockWait present c timeout = c := lockWait_found _ _ _ hlt hp
      rw [hstop]
      exact ⟨le_refl c, le_of_lt hlt, fun i h1 h2 => absurd h2 (by omega), fun _ => hp⟩
    | true =>
      have hstep : lockWait present c timeout = lockWait present (c + 1) timeout :=
        lockWait_step _ _ _ hlt hp
      have ih' := ih (c + 1) (by omega) (by omega)
      rw [hstep]
      refine ⟨by omega, ih'.2.1, ?_, ih'.2.2.2⟩
      intro i h1 h2
      rcases Nat.eq_or_lt_of_le h1 with he | hl
      · rw [← he]; exact hp
      · exact ih'.2.2.1 i hl h2

/-- C7: `acquire_lock` always returns after at most `timeout` half-second
ticks; every earlier poll saw the lock held; returning strictly before the
timeout means the lock had disappeared and no forced removal happened; the
forced removal of a stale lock happens exactly when the full timeout
elapsed; and on return the lock file holds the acquirer's pid. -/
theorem acquire_lock_spec (present : ℕ → Bool) (timeout pid : ℕ) :
    (acquire_lock present timeout pid).waited ≤ timeout ∧
    (acquire_lock present timeout pid).lockContent = pid ∧
    (∀ i, i < (acquire_lock present timeout pid).waited → present i = true) ∧
    ((acquire_lock present timeout pid).waited < timeout →
      present (acquire_lock present timeout pid).waited = false ∧
      (acquire_lock present timeout pid).forced = false) ∧
    ((acquire_lock present timeout pid).forced = true ↔
      (acquire_lock present timeout pid).waited = timeout) := by
  have h := lockWait_spec present timeout (timeout - 0) 0 rfl (Nat.zero_le _)
  refine ⟨h.2.1, rfl, fun i hi => h.2.2.1 i (Nat.zero_le _) hi, ?_, ?_⟩
  · intro hlt
    have hlt' : lockWait present 0 timeout < timeout := hlt
    have hne : lockWait present 0 timeout ≠ timeout := Nat.ne_of_lt hlt'
    exact ⟨h.2.2.2 hlt, decide_eq_false hne⟩
  · show decide (lockWait present 0 timeout = timeout) = true ↔
      lockWait present 0 timeout = timeout
    exact ⟨of_decide_eq_true, decide_eq_true⟩

/-- C7 witness: with a stale lock present at every poll (never released),
`acquire_lock` with the default timeout 10 returns after exactly the 10
ticks (5 seconds), forcibly removes the stale lock, and writes its own pid. -/
theorem acquire_lock_spec_witness :
    (acquire_lock (fun _ => true) 10 42).waited ≤ 10 ∧
    (acquire_lock (fun _ => true) 10 42).lockContent = 42 ∧
    (acquire_lock (fun _ => true) 10 42).forced = true ∧
    (acquire_lock (fun _ => true) 10 42).waited = 10 := by
  have h := acquire_lock_spec (fun _ => true) 10 42
  have hw : (acquire_lock (fun _ => true) 10 42).waited = 10 := by
    by_contra hne
    have hlt : (acquire_lock (fun _ => true) 10 42).waited < 10 :=
      lt_of_le_of_ne h.1 hne
    have := (h.2.2.2.1 hlt).1
    simp at this
  exact ⟨h.1, h.2.1, h.2.2.2.2.mpr hw, hw⟩

/-! ## Action input parsing (src/utils/inputParser.ts, `parseInputs`)

```
let mode = core.getInput("mode") || "minimal";
let interval = parseInt(core.getInput("interval")) || 1;
if (!["minimal","extended","full"].includes(mode)) mode = "minimal";
if (isNaN(interval) || interval <= 0) interval = 1;
```

`core.getInput` returns a string (empty when the input is missing). JS
`parseInt` with no radix: skip leading whitespace, optional sign, optional
`0x`/`0X` hex prefix, then the longest run of digits of the radix; `NaN`
(modelled `none`) when that run is empty.  `NaN` and `0` are falsy, so
`|| 1` replaces them by 1. -/

/-- JS whitespace accepted by `parseInt` (ASCII portion; the claims use no
exotic Unicode whitespace). -/
def isJsWs (c : Char) : Bool :=
  c = ' ' || c = '\t' || c = '\n' || c = '\r' || c = '\x0b' || c = '\x0c'

/-- Strip leading JS whitespace. -/
def dropJsWs : List Char → List Char
  | [] => []
  | c :: cs => if isJsWs c then dropJsWs cs else c :: cs

/-- Value of one digit in the given radix, if valid. -/
def digitVal (base : ℕ) (c : Char) : Option ℕ :=
  let code := c.toNat
  let raw : Option ℕ :=
    if 48 ≤ code ∧ code ≤ 57 then some (code - 48)
    else if 97 ≤ code ∧ code ≤ 102 then some (code - 87)
    else if 65 ≤ code ∧ code ≤ 70 then some (code - 55)
    else none
  match raw with
  | some d => if d < base then some d else none
  | none => none

/-- Accumulate the longest leading digit run. -/
def parseDigitRun (base : ℕ) : List Char → ℕ → ℕ
  | [], acc => acc
  | c :: cs, acc =>
    match digitVal base c with
    | some v => parseDigitRun base cs (acc * base + v)
    | none => acc

/-- JS `parseInt(s)` (radix argument omitted): `none` stands for `NaN`. -/
def js_parseInt (s : String) : Option ℤ :=
  let cs := dropJsWs s.toList
  let signed : ℤ × List Char :=
    match cs with
    | '-' :: r => (-1, r)
    | '+' :: r => (1, r)
    | r => (1, r)
  let based : ℕ × List Char :=
    match signed.2 with
    | '0' :: 'x' :: r => (16, r)
    | '0' :: 'X' :: r => (16, r)
    | r => (10, r)
  match based.2 with
  | [] => none
  | c :: _ =>
    match digitVal based.1 c with
    | none => none
    | some _ => some (signed.1 * (parseDigitRun based.1 based.2 0 : ℤ))

/-- The configuration returned by `parseInputs`. -/
structure ActionInputs where
  mode : String
  interval : ℤ
deriving Repr, DecidableEq

/-- The function `parseInputs`, on the raw `mode` and `interval` input strings. -/
def parseInputs (modeInput intervalInput : String) : ActionInputs :=
  let mode0 := if modeInput = "" then "minimal" else modeInput
  let interval0 : ℤ :=
    match js_parseInt intervalInput with
    | none => 1
    | some n => if n = 0 then 1 else n
  ⟨if mode0 = "minimal" ∨ mode0 = "extended" ∨ mode0 = "full" then mode0
    else "minimal",
   if interval0 ≤ 0 then 1 else interval0⟩

/-- C9: `parseInputs` is total, the returned mode is one of the three
enumerated values, the returned interval is at least 1, every mode string
outside the enumeration (including the empty string) falls back to
`minimal`, and a missing/non-numeric (`NaN`) or non-positive interval
string falls back to 1. -/
theorem parseInputs_spec (modeInput intervalInput : String) :
    ((parseInputs modeInput intervalInput).mode = "minimal" ∨
      (parseInputs modeInput intervalInput).mode = "extended" ∨
      (parseInputs modeInput intervalInput).mode = "full") ∧
    1 ≤ (parseInputs modeInput intervalInput).interval ∧
    (¬ (modeInput = "minimal" ∨ modeInput = "extended" ∨ modeInput = "full") →
      (parseInputs modeInput intervalInput).mode = "minimal") ∧
    (js_parseInt intervalInput = none →
      (parseInputs modeInput intervalInput).interval = 1) ∧
    (∀ n : ℤ, js_parseInt intervalInput = some n → n ≤ 0 →
      (parseInputs modeInput intervalInput).interval = 1) := by
  have hmode : (parseInputs modeInput intervalInput).mode
      = (if (if modeInput = "" then "minimal" else modeInput) = "minimal"
            ∨ (if modeInput = "" then "minimal" else modeInput) = "extended"
            ∨ (if modeInput = "" then "minimal" else modeInput) = "full"
          then (if modeInput = "" then "minimal" else modeInput)
          else "minimal") := rfl
  have hint : (parseInputs modeInput intervalInput).interval
      = (if (match js_parseInt intervalInput with
              | none => (1 : ℤ)
              | some n => if n = 0 then 1 else n) ≤ 0
          then 1
          else (match js_parseInt intervalInput with
              | none => (1 : ℤ)
              | some n => if n = 0 then 1 else n)) := rfl
  refine ⟨?_, ?_, ?_, ?_, ?_⟩
  · rw [hmode]
    by_cases h : (if modeInput = "" then "minimal" else modeInput) = "minimal"
        ∨ (if modeInput = "" then "minimal" else modeInput) = "extended"
        ∨ (if modeInput = "" then "minimal" else modeInput) = "full"
    · rw [if_pos h]; exact h
    · rw [if_neg h]; left; rfl
  · rw [hint]
    by_cases hk : (match js_parseInt intervalInput with
        | none => (1 : ℤ)
        | some n => if n = 0 then 1 else n) ≤ 0
    · rw [if_pos hk]
    · rw [if_neg hk]; omega
  · intro hm
    rw [hmode]
    by_cases he : modeInput = ""
    · rw [if_pos he]
      norm_num
    · rw [if_neg he, if_neg hm]
  · intro hn
    rw [hint]
    simp only [hn]
    norm_num
  · intro n hn hle
    rw [hint]
    simp only [hn]
    by_cases h0 : n = 0
    · simp [h0]
    · rw [if_neg h0, if_pos hle]

/-- C9 witness: mode `bogus` falls back to `minimal`; interval `-3` parses
to a non-positive number and falls back to 1. -/
theorem parseInputs_spec_witness :
    ((parseInputs "bogus" "-3").mode = "minimal" ∨
      (parseInputs "bogus" "-3").mode = "extended" ∨
      (parseInputs "bogus" "-3").mode = "full") ∧
    1 ≤ (parseInputs "bogus" "-3").interval ∧
    (parseInputs "bogus" "-3").mode = "minimal" ∧
    (parseInputs "bogus" "-3").interval = 1 := by
  have h := parseInputs_spec "bogus" "-3"
  refine ⟨h.1, h.2.1, h.2.2.1 (by decide), h.2.2.2.2 (-3) (by decide) (by decide)⟩

/-! ## Entry assembly (linux.sh `collect_entry`, lines 241-338)

`collect_entry` builds `{timestamp, github_context} + .` over `{}` and then
dispatches on `$MODE` with a bash `case` that has arms only for `minimal`,
`extended` and `full` (no default arm): a `minimal` arm merges
`. + {system: {cpu, memory, disk}}`, the `extended` and `full` arms merge
the identical `. + {system: {info, cpu, memory, disk, network,
top_processes}}`, and any other mode string leaves the entry without a
`system` key.  Sampler outputs are opaque `Json` parameters (they read live
OS state). -/

/-- jq object addition `l + r`: keys of `l` (values overridden by `r`),
then the keys only in `r`, in order. -/
def jqAddObj (l r : List (String × Json)) : List (String × Json) :=
  (l.map (fun kv =>
      match r.find? (fun kv2 => kv2.1 == kv.1) with
      | some kv2 => (kv.1, kv2.2)
      | none => kv))
    ++ r.filter (fun kv2 => ¬ l.any (fun kv => kv.1 == kv2.1))

/-- The `github_context` fragment. -/
def githubContext (user : String) (repos : List Repo) : Json :=
  Json.obj [("user", Json.str user),
    ("repositories", Json.arr (repos.map (fun r =>
      Json.obj [("name", Json.str r.name), ("url", Json.str r.url)])))]

/-- The minimal-mode `system` object `{cpu, memory, disk}`. -/
def minimalSystem (cpu memory disk : Json) : Json :=
  Json.obj [("cpu", cpu), ("memory", memory), ("disk", disk)]

/-- The extended/full-mode `system` object
`{info, cpu, memory, disk, network, top_processes}`. -/
def extendedSystem (info cpu memory disk network tops : Json) : Json :=
  Json.obj [("info", info), ("cpu", cpu), ("memory", memory), ("disk", disk),
    ("network", network), ("top_processes", tops)]

/-- The function `collect_entry`: timestamp + context, then the mode dispatch. -/
def collect_entry (mode ts user : String) (repos : List Repo)
    (cpu memory disk info network tops : Json) : Json :=
  let base := jqAddObj
    [("timestamp", Json.str ts), ("github_context", githubContext user repos)] []
  if mode = "minimal" then
    Json.obj (jqAddObj base [("system", minimalSystem cpu memory disk)])
  else if mode = "extended" then
    Json.obj (jqAddObj base [("system", extendedSystem info cpu memory disk network tops)])
  else if mode = "full" then
    Json.obj (jqAddObj base [("system", extendedSystem info cpu memory disk network tops)])
  else
    Json.obj base

/-- Top-level key list of a JSON object. -/
def Json.objKeys : Json → Option (List String)
  | Json.obj kvs => some (kvs.map Prod.fst)
  | _ => none

/-- Value of a top-level key of a JSON object (`none` when absent or not an
object). -/
def Json.lookupKey : Json → String → Option Json
  | Json.obj kvs, k => (kvs.find? (fun kv => kv.1 == k)).map Prod.snd
  | _, _ => none

/-- C3: in each of the three valid modes the assembled entry has exactly the
keys `timestamp`, `github_context`, `system`; the `system` value's key set is
exactly `cpu, memory, disk` in minimal mode and exactly `info, cpu, memory,
disk, network, top_processes` in extended and full modes; and the extended
and full arms produce identical entries. -/
theorem collect_entry_mode_shapes (ts user : String) (repos : List Repo)
    (cpu memory disk info network tops : Json) :
    (Json.objKeys (collect_entry "minimal" ts user repos cpu memory disk info network tops)
        = some ["timestamp", "github_context", "system"] ∧
      Json.lookupKey (collect_entry "minimal" ts user repos cpu memory disk info network tops)
        "system" = some (minimalSystem cpu memory disk) ∧
      Json.objKeys (minimalSystem cpu memory disk) = some ["cpu", "memory", "disk"]) ∧
    (Json.objKeys (collect_entry "extended" ts user repos cpu memory disk info network tops)
        = some ["timestamp", "github_context", "system"] ∧
      Json.lookupKey (collect_entry "extended" ts user repos cpu memory disk info network tops)
        "system" = some (extendedSystem info cpu memory disk network tops) ∧
      Json.objKeys (extendedSystem info cpu memory disk network tops)
        = some ["info", "cpu", "memory", "disk", "network", "top_processes"]) ∧
    collect_entry "extended" ts user repos cpu memory disk info network tops
      = collect_entry "full" ts user repos cpu memory disk info network tops := by
  refine ⟨⟨rfl, rfl, rfl⟩, ⟨rfl, rfl, rfl⟩, rfl⟩

/-- C10: a mode outside the three `case` arms leaves the entry with the
`timestamp` and `github_context` keys only — no `system` key at all. -/
theorem collect_entry_unknown_mode (mode ts user : String) (repos : List Repo)
    (cpu memory disk info network tops : Json)
    (h1 : mode ≠ "minimal") (h2 : mode ≠ "extended") (h3 : mode ≠ "full") :
    Json.objKeys (collect_entry mode ts user repos cpu memory disk info network tops)
      = some ["timestamp", "github_context"] ∧
    Json.lookupKey (collect_entry mode ts user repos cpu memory disk info network tops)
      "system" = none ∧
    Json.lookupKey (collect_entry mode ts user repos cpu memory disk info network tops)
      "timestamp" = some (Json.str ts) ∧
    Json.lookupKey (collect_entry mode ts user repos cpu memory disk info network tops)
      "github_context" = some (githubContext user repos) := by
  unfold collect_entry
  rw [if_neg h1, if_neg h2, if_neg h3]
  refine ⟨rfl, rfl, rfl, rfl⟩

/-- C10 witness: mode `bogus` (accepted by the script's argument loop, which
validates nothing) yields an entry with no `system` key. -/
theorem collect_entry_unknown_mode_witness :
    Json.objKeys (collect_entry "bogus" "t" "u" [] Json.null Json.null Json.null
        Json.null Json.null Json.null)
      = some ["timestamp", "github_context"] ∧
    Json.lookupKey (collect_entry "bogus" "t" "u" [] Json.null Json.null Json.null
        Json.null Json.null Json.null) "system" = none ∧
    Json.lookupKey (collect_entry "bogus" "t" "u" [] Json.null Json.null Json.null
        Json.null Json.null Json.null) "timestamp" = some (Json.str "t") ∧
    Json.lookupKey (collect_entry "bogus" "t" "u" [] Json.null Json.null Json.null
        Json.null Json.null Json.null) "github_context"
      = some (githubContext "u" []) := by
  exact collect_entry_unknown_mode "bogus" "t" "u" [] Json.null Json.null Json.null
    Json.null Json.null Json.null (by decide) (by decide) (by decide)

/-! ## Statistics (linux.sh `print_stats`, lines 386-410)

```
jq -r 'if length > 0 then
  { total_entries: length, first_timestamp: first.timestamp,
    last_timestamp: last.timestamp,
    avg_cpu: ([.[].system.cpu.current_usage.usage_percent] | add / length),
    avg_memory: ([.[].system.memory.usage_percent] | add / length) } | ...
else "No data collected yet" end' "$OUTPUT_FILE" 2>/dev/null \
  || echo "Unable to calculate statistics"
```

jq semantics that matter: `.foo` on `null` is `null` and on a non-object
non-null value is an error; `add` folds `+` from `null`, and `null + x = x`,
so entries whose usage path is missing contribute nothing to the sum while
still counting in `length`; dividing `null` (or any non-number) by a number
is an error; any error makes `jq` exit non-zero, which the shell `||` turns
into the literal `Unable to calculate statistics`.  The success branch's
rendering to the `Statistics:` text (with its `tostring[0:5]` truncation) is
not modelled: the result carries the computed fields. -/

/-- jq field access `.k`: `null` on a missing key, `null.k = null`, error on
any other non-object. -/
def jqField : Json → String → Option Json
  | Json.obj kvs, k => some ((((kvs.find? (fun kv => kv.1 == k))).map Prod.snd).getD Json.null)
  | Json.null, _ => some Json.null
  | _, _ => none

/-- jq `.system.cpu.current_usage.usage_percent`. -/
def cpuUsagePath (e : Json) : Option Json :=
  (((jqField e "system").bind (fun j => jqField j "cpu")).bind
    (fun j => jqField j "current_usage")).bind (fun j => jqField j "usage_percent")

/-- jq `.system.memory.usage_percent`. -/
def memUsagePath (e : Json) : Option Json :=
  ((jqField e "system").bind (fun j => jqField j "memory")).bind
    (fun j => jqField j "usage_percent")

/-- jq binary `+` on the value kinds reachable here: `null` is the identity,
numbers add, strings/arrays concatenate, objects merge; anything else
errors. -/
def jqAdd : Json → Json → Option Json
  | Json.null, b => some b
  | a, Json.null => some a
  | Json.num a, Json.num b => some (Json.num (a + b))
  | Json.str a, Json.str b => some (Json.str (a ++ b))
  | Json.arr a, Json.arr b => some (Json.arr (a ++ b))
  | Json.obj a, Json.obj b => some (Json.obj (jqAddObj a b))
  | _, _ => none

/-- jq `add`: fold `+` from `null` over the array. -/
def jqAddList (xs : List Json) : Option Json :=
  xs.foldl (fun acc x => acc.bind (fun a => jqAdd a x)) (some Json.null)

/-- jq `/` restricted to numbers (all the stats program divides). -/
def jqDiv : Json → Json → Option Json
  | Json.num a, Json.num b => if b = 0 then none else some (Json.num (a / b))
  | _, _ => none

/-- jq `[.[] | f]` with per-element failure propagation. -/
def mapOptions (f : Json → Option Json) : List Json → Option (List Json)
  | [] => some []
  | e :: es =>
    match f e, mapOptions f es with
    | some v, some vs => some (v :: vs)
    | _, _ => none

/-- The computed statistics record (the fields of the jq object literal). -/
structure Stats where
  total_entries : ℕ
  first_timestamp : Json
  last_timestamp : Json
  avg_cpu : ℚ
  avg_memory : ℚ
deriving Repr

/-- The jq stats object computation, fields evaluated in source order;
`none` is a jq error. -/
def compute_stats (arr : List Json) : Option Stats :=
  match arr with
  | [] => none
  | e0 :: _ =>
    match arr.getLast? with
    | none => none
    | some elast =>
      match jqField e0 "timestamp", jqField elast "timestamp" with
      | some ft, some lt =>
        (match mapOptions cpuUsagePath arr with
         | none => none
         | some cpuVals =>
           match jqAddList cpuVals with
           | none => none
           | some csum =>
             match jqDiv csum (Json.num arr.length) with
             | some (Json.num avgc) =>
               (match mapOptions memUsagePath arr with
                | none => none
                | some memVals =>
                  match jqAddList memVals with
                  | none => none
                  | some msum =>
                    match jqDiv msum (Json.num arr.length) with
                    | some (Json.num avgm) =>
                      some ⟨arr.length, ft, lt, avgc, avgm⟩
                    | _ => none)
             | _ => none)
      | _, _ => none

/-- The function `print_stats` on the parsed array: the empty-array message comes from the
jq program itself, the `Unable` message from the shell `|| echo` fallback on
any jq error, and a successful computation is reported as the stats record. -/
def print_stats (arr : List Json) : String ⊕ Stats :=
  if arr.length > 0 then
    match compute_stats arr with
    | some s => Sum.inr s
    | none => Sum.inl "Unable to calculate statistics"
  else Sum.inl "No data collected yet"

/-- An entry with exactly the minimal-mode access paths used by the stats
program: `system.cpu.current_usage.usage_percent` and
`system.memory.usage_percent`. -/
def minimalEntry (ts : String) (cpuPct memPct : ℚ) : Json :=
  Json.obj [("timestamp", Json.str ts),
    ("github_context", Json.obj [("user", Json.str "u"), ("repositories", Json.arr [])]),
    ("system", Json.obj [
      ("cpu", Json.obj [("current_usage", Json.obj [("usage_percent", Json.num cpuPct)])]),
      ("memory", Json.obj [("usage_percent", Json.num memPct)])])]

/-- Pointwise-successful `mapOptions` collects the images. -/
theorem mapOptions_forall_some (f : Json → Option Json) (g : Json → Json) :
    ∀ l : List Json, (∀ a ∈ l, f a = some (g a)) →
      mapOptions f l = some (l.map g)
  | [], _ => rfl
  | e :: es, h => by
    have he : f e = some (g e) := h e (by simp)
    have hes : mapOptions f es = some (es.map g) :=
      mapOptions_forall_some f g es (fun a ha => h a (by simp [ha]))
    simp [mapOptions, he, hes]

/-- Summing an all-`null` array yields `null`. -/
theorem jqAddList_nulls :
    ∀ l : List Json, (∀ x ∈ l, x = Json.null) → jqAddList l = some Json.null
  | [], _ => rfl
  | x :: xs, h => by
    have hx : x = Json.null := h x (by simp)
    have hxs : jqAddList xs = some Json.null :=
      jqAddList_nulls xs (fun y hy => h y (by simp [hy]))
    simpa [jqAddList, hx, jqAdd] using hxs

/-- Adding two numbers with jq plus. -/
theorem jqAdd_num_num (a b : ℚ) :
    jqAdd (Json.num a) (Json.num b) = some (Json.num (a + b)) := rfl

/-- Folding `+` over numbers from a numeric accumulator adds them up. -/
theorem jqAdd_foldl_nums :
    ∀ (qs : List ℚ) (a : ℚ),
      List.foldl (fun acc x => acc.bind (fun v => jqAdd v x))
          (some (Json.num a)) (qs.map Json.num)
        = some (Json.num (a + qs.sum))
  | [], a => by simp
  | q :: qs, a => by
    have hstep : List.foldl (fun acc x => acc.bind (fun v => jqAdd v x))
          (some (Json.num a)) ((q :: qs).map Json.num)
        = List.foldl (fun acc x => acc.bind (fun v => jqAdd v x))
          (some (Json.num (a + q))) (qs.map Json.num) := rfl
    rw [hstep, jqAdd_foldl_nums qs (a + q)]
    simp [add_assoc]

/-- jq `add` of a non-empty array of numbers is their sum. -/
theorem jqAddList_nums (qs : List ℚ) (h : qs ≠ []) :
    jqAddList (qs.map Json.num) = some (Json.num qs.sum) := by
  obtain ⟨q, qs', rfl⟩ := List.exists_cons_of_ne_nil h
  have hstep : jqAddList ((q :: qs').map Json.num)
      = List.foldl (fun acc x => acc.bind (fun v => jqAdd v x))
        (some (Json.num q)) (qs'.map Json.num) := rfl
  rw [hstep, jqAdd_foldl_nums qs' q]
  simp

/-- An entry whose cpu usage path evaluates (to anything) also has an
evaluating `.timestamp` access: both only need the entry to be an object or
`null`. -/
theorem jqField_timestamp_of_cpuPath (e v : Json)
    (h : cpuUsagePath e = some v) : ∃ w, jqField e "timestamp" = some w := by
  cases e with
  | null => exact ⟨Json.null, rfl⟩
  | obj kvs => exact ⟨_, rfl⟩
  | bool b => simp [cpuUsagePath, jqField] at h
  | num q => simp [cpuUsagePath, jqField] at h
  | str s => simp [cpuUsagePath, jqField] at h
  | arr xs => simp [cpuUsagePath, jqField] at h

/-- The minimal entry's `.timestamp`. -/
theorem minimalEntry_timestamp (ts : String) (q r : ℚ) :
    jqField (minimalEntry ts q r) "timestamp" = some (Json.str ts) := rfl

/-- The minimal entry's cpu usage path. -/
theorem minimalEntry_cpuPath (ts : String) (q r : ℚ) :
    cpuUsagePath (minimalEntry ts q r) = some (Json.num q) := rfl

/-- The minimal entry's memory usage path. -/
theorem minimalEntry_memPath (ts : String) (q r : ℚ) :
    memUsagePath (minimalEntry ts q r) = some (Json.num r) := rfl

/-- cpu paths of mapped minimal entries collect the cpu percents. -/
theorem mapOptions_cpu_minimal (ts : String) :
    ∀ ps : List (ℚ × ℚ),
      mapOptions cpuUsagePath (ps.map (fun p => minimalEntry ts p.1 p.2))
        = some (ps.map (fun p => Json.num p.1))
  | [] => rfl
  | p :: ps => by
    simp [mapOptions, minimalEntry_cpuPath, mapOptions_cpu_minimal ts ps]

/-- memory paths of mapped minimal entries collect the memory percents. -/
theorem mapOptions_mem_minimal (ts : String) :
    ∀ ps : List (ℚ × ℚ),
      mapOptions memUsagePath (ps.map (fun p => minimalEntry ts p.1 p.2))
        = some (ps.map (fun p => Json.num p.2))
  | [] => rfl
  | p :: ps => by
    simp [mapOptions, minimalEntry_memPath, mapOptions_mem_minimal ts ps]

/-- When every entry's cpu usage path yields `null` (the entry lacks the
minimal shape but is an object), the average computation errors. -/
theorem compute_stats_all_null_cpu (arr : List Json) (hne : arr ≠ [])
    (hcpu : ∀ e ∈ arr, cpuUsagePath e = some Json.null) :
    compute_stats arr = none := by
  obtain ⟨e0, rest, rfl⟩ := List.exists_cons_of_ne_nil hne
  cases hlast : (e0 :: rest).getLast? with
  | none => simp [List.getLast?_eq_none_iff] at hlast
  | some elast =>
    have helast_mem : elast ∈ e0 :: rest :=
      List.mem_of_mem_getLast? (by rw [hlast]; rfl)
    obtain ⟨ft, hft⟩ := jqField_timestamp_of_cpuPath e0 _ (hcpu e0 (by simp))
    obtain ⟨lt, hlt⟩ := jqField_timestamp_of_cpuPath elast _ (hcpu elast helast_mem)
    have hmap : mapOptions cpuUsagePath (e0 :: rest)
        = some ((e0 :: rest).map (fun _ => Json.null)) :=
      mapOptions_forall_some _ _ _ hcpu
    have hsum : jqAddList ((e0 :: rest).map (fun _ => Json.null))
        = some Json.null := by
      apply jqAddList_nulls
      intro x hx
      rcases List.mem_map.mp hx with ⟨a, _, hfa⟩
      exact hfa.symm
    simp only [compute_stats, hlast, hft, hlt, hmap, hsum]
    rfl

/-- The value of `compute_stats` on a non-empty array of minimal-shape entries: the count,
the first/last timestamps, and the two averages (sum over count). -/
theorem compute_stats_minimal (ts : String) (ps : List (ℚ × ℚ)) (hne : ps ≠ []) :
    compute_stats (ps.map (fun p => minimalEntry ts p.1 p.2))
      = some ⟨ps.length, Json.str ts, Json.str ts,
          (ps.map Prod.fst).sum / (ps.length : ℚ),
          (ps.map Prod.snd).sum / (ps.length : ℚ)⟩ := by
  obtain ⟨p0, ps', rfl⟩ := List.exists_cons_of_ne_nil hne
  cases hpl : (p0 :: ps').getLast? with
  | none => simp [List.getLast?_eq_none_iff] at hpl
  | some plast =>
    have hlast : ((p0 :: ps').map (fun p => minimalEntry ts p.1 p.2)).getLast?
        = some (minimalEntry ts plast.1 plast.2) := by
      rw [List.getLast?_map, hpl]
      rfl
    have hmapc := mapOptions_cpu_minimal ts (p0 :: ps')
    have hmapm := mapOptions_mem_minimal ts (p0 :: ps')
    have hsumc : jqAddList ((p0 :: ps').map (fun p => Json.num p.1))
        = some (Json.num ((p0 :: ps').map Prod.fst).sum) := by
      have hqs : ((p0 :: ps').map (fun p => Json.num p.1))
          = ((p0 :: ps').map Prod.fst).map Json.num := by
        simp [List.map_map]
      rw [hqs]
      exact jqAddList_nums _ (by simp)
    have hsumm : jqAddList ((p0 :: ps').map (fun p => Json.num p.2))
        = some (Json.num ((p0 :: ps').map Prod.snd).sum) := by
      have hrs : ((p0 :: ps').map (fun p => Json.num p.2))
          = ((p0 :: ps').map Prod.snd).map Json.num := by
        simp [List.map_map]
      rw [hrs]
      exact jqAddList_nums _ (by simp)
    have hlast2 : (minimalEntry ts p0.1 p0.2
        :: List.map (fun p => minimalEntry ts p.1 p.2) ps').getLast?
        = some (minimalEntry ts plast.1 plast.2) := hlast
    have hne0q : (((ps'.length + 1 : ℕ)) : ℚ) ≠ 0 := by
      exact_mod_cast Nat.succ_ne_zero ps'.length
    simp only [List.map_cons] at hmapc hmapm hsumc hsumm
    simp only [compute_stats, List.map_cons, List.length_cons, hlast2,
      minimalEntry_timestamp, hmapc, hmapm, hsumc, hsumm, jqDiv]
    simp [List.sum_cons, hne0q]
    have hne0q2 : ((ps'.length : ℚ) + 1) ≠ 0 := Nat.cast_add_one_ne_zero ps'.length
    simp only [if_neg hne0q2]

/-- C8 (amended): `print_stats` is total; the empty array reports the literal
`No data collected yet`; an array in which *every* entry's cpu usage path
yields `null` (no entry has the minimal shape) makes the average computation
error and reports the literal `Unable to calculate statistics`; and a
non-empty array of minimal-shaped entries reports `avg_cpu` (and
`avg_memory`) equal to the arithmetic mean of the per-entry percentages.
(When only *some* entries lack the shape, jq's `null + x = x` makes the code
report a mean over the missing-as-zero values instead — see the
counterexample.) -/
theorem print_stats_spec :
    print_stats ([] : List Json) = Sum.inl "No data collected yet" ∧
    (∀ arr : List Json, arr ≠ [] →
      (∀ e ∈ arr, cpuUsagePath e = some Json.null) →
      print_stats arr = Sum.inl "Unable to calculate statistics") ∧
    (∀ (ts : String) (ps : List (ℚ × ℚ)), ps ≠ [] →
      print_stats (ps.map (fun p => minimalEntry ts p.1 p.2))
        = Sum.inr ⟨ps.length, Json.str ts, Json.str ts,
            (ps.map Prod.fst).sum / (ps.length : ℚ),
            (ps.map Prod.snd).sum / (ps.length : ℚ)⟩) := by
  refine ⟨rfl, ?_, ?_⟩
  · intro arr hne hcpu
    have hcs := compute_stats_all_null_cpu arr hne hcpu
    have hlen : 0 < arr.length := List.length_pos.mpr hne
    simp [print_stats, hcs, hlen]
  · intro ts ps hne
    have hcs := compute_stats_minimal ts ps hne
    have hlen : 0 < (ps.map (fun p => minimalEntry ts p.1 p.2)).length := by
      simp [List.length_pos.mpr hne]
    simp [print_stats, hcs, hlen, hne]

/-- C8 counterexample: (a) the empty-array message is capitalized
(`No data collected yet`), not the claimed lowercase literal; (b) an array
where *some* (but not all) entries lack the minimal shape does **not**
report `unable to calculate`: jq's `add` treats the `null` from the
malformed entry as the identity, so the code reports a normal statistics
record whose `avg_cpu` is `(10 + null)/2 = 5`. -/
theorem print_stats_claim_false :
    print_stats [] = Sum.inl "No data collected yet" ∧
    "No data collected yet" ≠ "no data collected yet" ∧
    print_stats [minimalEntry "t" 10 30, Json.obj []]
      = Sum.inr ⟨2, Json.str "t", Json.null, 5, 15⟩ := by
  refine ⟨rfl, by decide, ?_⟩
  have hlast : ([minimalEntry "t" 10 30, Json.obj []].getLast?)
      = some (Json.obj []) := rfl
  have hft : jqField (minimalEntry "t" 10 30) "timestamp" = some (Json.str "t") := rfl
  have hlt : jqField (Json.obj []) "timestamp" = some Json.null := rfl
  have hmapc : mapOptions cpuUsagePath [minimalEntry "t" 10 30, Json.obj []]
      = some [Json.num 10, Json.null] := rfl
  have hmapm : mapOptions memUsagePath [minimalEntry "t" 10 30, Json.obj []]
      = some [Json.num 30, Json.null] := rfl
  have hsumc : jqAddList [Json.num 10, Json.null] = some (Json.num 10) := rfl
  have hsumm : jqAddList [Json.num 30, Json.null] = some (Json.num 30) := rfl
  have hdivc : jqDiv (Json.num 10)
      (Json.num (([minimalEntry "t" 10 30, Json.obj []] : List Json).length : ℚ))
      = some (Json.num 5) := by
    norm_num [jqDiv]
  have hdivm : jqDiv (Json.num 30)
      (Json.num (([minimalEntry "t" 10 30, Json.obj []] : List Json).length : ℚ))
      = some (Json.num 15) := by
    norm_num [jqDiv]
  have hcs : compute_stats [minimalEntry "t" 10 30, Json.obj []]
      = some ⟨2, Json.str "t", Json.null, 5, 15⟩ := by
    simp only [compute_stats, hlast, hft, hlt, hmapc, hmapm, hsumc, hsumm,
      hdivc, hdivm]
    rfl
  simp [print_stats, hcs]

/-- C8 witness: an array whose single entry is the empty object reports
`Unable to calculate statistics`; three minimal entries with CPU usages
`10, 20, 30` (memory `1, 2, 3`) report `avg_cpu = 20`. -/
theorem print_stats_spec_witness :
    print_stats [Json.obj []] = Sum.inl "Unable to calculate statistics" ∧
    print_stats (([(10, 1), (20, 2), (30, 3)] : List (ℚ × ℚ)).map
        (fun p => minimalEntry "t" p.1 p.2))
      = Sum.inr ⟨3, Json.str "t", Json.str "t", 20, 2⟩ := by
  constructor
  · refine print_stats_spec.2.1 [Json.obj []] (by simp) ?_
    intro e he
    rw [List.mem_singleton] at he
    subst he
    rfl
  · have h := print_stats_spec.2.2 "t" [(10, 1), (20, 2), (30, 3)] (by simp)
    rw [h]
    norm_num
